import Mathlib

/-!
# Verification of the rkt pod lifecycle core and its support code

This development gives a shallow embedding of the pod lifecycle state
machine, garbage collector and pulse query of rkt (as described by
`Documentation/pods.md`, the lifecycle document shipped with the sources),
together with the `stage0` preparation/run code (`stage0/run.go`) and the
content-addressable store key resolution (`cas/cas.go`), and proves the
specification's claims about them.

The lifecycle state machine itself (lock primitive, directory renames,
collector passes) is implemented outside the files at hand; those parts are
modelled from the specification and the lifecycle document, and each such
definition says so in its doc comment.  The `stage0` and `cas` definitions
are translated directly from the Go sources.
-/

namespace RktPods

/-- Modelled from the spec: the six top-level pod directories
(`embryo`, `prepare`, `prepared`, `run`, `exited-garbage`, `garbage`),
each a flat namespace of pod-UUID-named subdirectories (spec §3, lifecycle
doc tables). -/
inductive Loc : Type
  | embryo
  | prepare
  | prepared
  | run
  | exitedGarbage
  | garbage
  deriving DecidableEq, Repr

/-- Modelled from the spec: the advisory-lock state of the single pod
directory inode.  The lock follows the directory across renames (it is
bound to the open file descriptor, not the path).  `excl` is an exclusive
lock held by some live process, `shared` a shared lock held by a poller
(collector or pulse query). -/
inductive LockSt : Type
  | free
  | excl
  | shared
  deriving DecidableEq, Repr

/-- Modelled from the spec: the filesystem state relevant to one pod UUID.
`dirs l = true` means the UUID currently names a subdirectory of the
top-level directory `l`.  Nothing here forces the UUID to sit in at most
one directory: that is the invariant proved below.  `created` records that
`createEmbryo` has happened, `deleted` that the collector's sweep has
removed the directory tree. -/
structure PodState : Type where
  dirs : Loc → Bool
  lock : LockSt
  created : Bool
  deleted : Bool

/-- Modelled from the spec: `rename(2)` of the pod directory from `src` to
`dst` — one atomic step that removes the source name and installs the
destination name (spec §4.2: "each uses one atomic rename"). -/
def rename (src dst : Loc) (s : PodState) : PodState :=
  { s with dirs := fun l => if l = src then false else if l = dst then true else s.dirs l }

/-- Modelled from the spec: recursive deletion of the pod directory by the
collector's sweep, performed at location `l` while holding the exclusive
lock; afterwards every descriptor is closed, releasing the lock. -/
def sweepDelete (l : Loc) (s : PodState) : PodState :=
  { s with dirs := fun l' => if l' = l then false else s.dirs l'
         , deleted := true
         , lock := LockSt.free }

/-- Modelled from the spec §4.2: `prepareFailed(PrepareRef) -> void`:
"simply release the lock without renaming; the pod is left in
`prepare/uuid`, unlocked".  No field other than the lock changes. -/
def prepareFailed (s : PodState) : PodState :=
  { s with lock := LockSt.free }

/-- Modelled from the spec: a non-blocking shared-lock probe on the pod
directory succeeds exactly when no process holds the exclusive lock
(lifecycle doc: "A pod is considered exited if a shared lock can be
acquired"). -/
def sharedProbeOk (s : PodState) : Bool :=
  decide (s.lock ≠ LockSt.excl)

/-- Modelled from the spec: the collector recognises a failed prepare by
finding the UUID in `prepare/` and succeeding at a shared lock (lifecycle
doc: "Any directory in `$var/prepare` in an unlocked state is considered a
failed prepare"). -/
def failedPrepareObserved (s : PodState) : Bool :=
  s.dirs Loc.prepare && sharedProbeOk s

/-- Modelled from the spec §4.2/§4.3: one transition of the lifecycle state
machine or of the collector, at the granularity of a single lock operation
or a single atomic rename.  Lock acquisitions strictly precede the renames
they protect, renames that keep the lock are followed by no release step,
and the kernel may release an exclusive lock at any time (process exit or
crash). -/
inductive Step : PodState → PodState → Prop
  /-- `createEmbryo`: `rkt run`/`rkt prepare` make `embryo/uuid`. -/
  | createEmbryo (s : PodState) (h : s.created = false) :
      Step s { s with dirs := Function.update s.dirs Loc.embryo true, created := true }
  /-- `enterPrepare`, lock half: exclusive lock acquired on the embryo
  directory before any rename. -/
  | lockEmbryo (s : PodState) (h₁ : s.dirs Loc.embryo = true) (h₂ : s.lock = LockSt.free) :
      Step s { s with lock := LockSt.excl }
  /-- `enterPrepare`, rename half: `embryo/uuid` → `prepare/uuid` under the
  exclusive lock. -/
  | renameEmbryoPrepare (s : PodState) (h₁ : s.dirs Loc.embryo = true)
      (h₂ : s.lock = LockSt.excl) :
      Step s (rename Loc.embryo Loc.prepare s)
  /-- `prepareSucceededToPrepared`, rename half: `prepare/uuid` →
  `prepared/uuid` under the exclusive lock. -/
  | renamePreparePrepared (s : PodState) (h₁ : s.dirs Loc.prepare = true)
      (h₂ : s.lock = LockSt.excl) :
      Step s (rename Loc.prepare Loc.prepared s)
  /-- `prepareSucceededToPrepared`, release half: the lock is dropped once
  the pod rests in `prepared/`. -/
  | releaseAfterPrepared (s : PodState) (h₁ : s.dirs Loc.prepared = true)
      (h₂ : s.lock = LockSt.excl) :
      Step s { s with lock := LockSt.free }
  /-- `prepareSucceededToRun`: `prepare/uuid` → `run/uuid` with the lock
  still held (the fast path of `rkt run`). -/
  | renamePrepareRun (s : PodState) (h₁ : s.dirs Loc.prepare = true)
      (h₂ : s.lock = LockSt.excl) :
      Step s (rename Loc.prepare Loc.run s)
  /-- `prepareFailed`: release the lock without renaming. -/
  | prepareFailedStep (s : PodState) (h₁ : s.dirs Loc.prepare = true)
      (h₂ : s.lock = LockSt.excl) :
      Step s (prepareFailed s)
  /-- `resumeFromPrepared`, lock half: `rkt run-prepared` exclusively locks
  `prepared/uuid` before renaming. -/
  | lockPrepared (s : PodState) (h₁ : s.dirs Loc.prepared = true)
      (h₂ : s.lock = LockSt.free) :
      Step s { s with lock := LockSt.excl }
  /-- `resumeFromPrepared`, rename half: `prepared/uuid` → `run/uuid` under
  the exclusive lock, which stays held into the Run phase. -/
  | renamePreparedRun (s : PodState) (h₁ : s.dirs Loc.prepared = true)
      (h₂ : s.lock = LockSt.excl) :
      Step s (rename Loc.prepared Loc.run s)
  /-- Process exit or crash: the kernel closes the descriptors of the lock
  holder, implicitly releasing an exclusive lock, at any moment. -/
  | processExit (s : PodState) (h : s.lock = LockSt.excl) :
      Step s { s with lock := LockSt.free }
  /-- Collector mark pass, probe half: a non-blocking shared lock is
  acquired on an entry of `run/` (only possible when the lock is free). -/
  | gcMarkLock (s : PodState) (h₁ : s.dirs Loc.run = true) (h₂ : s.lock = LockSt.free) :
      Step s { s with lock := LockSt.shared }
  /-- Collector mark pass, rename half: `run/uuid` → `exited-garbage/uuid`
  under the shared lock. -/
  | gcMarkRename (s : PodState) (h₁ : s.dirs Loc.run = true) (h₂ : s.lock = LockSt.shared) :
      Step s (rename Loc.run Loc.exitedGarbage s)
  /-- A poller (collector or pulse) releases its shared lock. -/
  | sharedRelease (s : PodState) (h : s.lock = LockSt.shared) :
      Step s { s with lock := LockSt.free }
  /-- Failed-preparation collection, probe half: a shared lock is acquired
  on an entry of `prepare/` (possible only for failed prepares). -/
  | gcPrepareLock (s : PodState) (h₁ : s.dirs Loc.prepare = true)
      (h₂ : s.lock = LockSt.free) :
      Step s { s with lock := LockSt.shared }
  /-- Failed-preparation collection, rename half: `prepare/uuid` →
  `garbage/uuid`. -/
  | gcPrepareRename (s : PodState) (h₁ : s.dirs Loc.prepare = true)
      (h₂ : s.lock = LockSt.shared) :
      Step s (rename Loc.prepare Loc.garbage s)
  /-- Pulse query on a pod in `run/`: an instantaneous shared-lock sample
  (acquired only when free). -/
  | pulseLock (s : PodState) (h₁ : s.dirs Loc.run = true) (h₂ : s.lock = LockSt.free) :
      Step s { s with lock := LockSt.shared }
  /-- Sweep pass, lock half: exclusive lock acquired on an entry of
  `exited-garbage/`. -/
  | sweepLockExited (s : PodState) (h₁ : s.dirs Loc.exitedGarbage = true)
      (h₂ : s.lock = LockSt.free) :
      Step s { s with lock := LockSt.excl }
  /-- Sweep pass, delete half: the `exited-garbage/` entry is recursively
  removed under the exclusive lock. -/
  | sweepDeleteExited (s : PodState) (h₁ : s.dirs Loc.exitedGarbage = true)
      (h₂ : s.lock = LockSt.excl) :
      Step s (sweepDelete Loc.exitedGarbage s)
  /-- Sweep pass, lock half, for the `garbage/` directory. -/
  | sweepLockGarbage (s : PodState) (h₁ : s.dirs Loc.garbage = true)
      (h₂ : s.lock = LockSt.free) :
      Step s { s with lock := LockSt.excl }
  /-- Sweep pass, delete half, for the `garbage/` directory. -/
  | sweepDeleteGarbage (s : PodState) (h₁ : s.dirs Loc.garbage = true)
      (h₂ : s.lock = LockSt.excl) :
      Step s (sweepDelete Loc.garbage s)

/-- Modelled from the spec: the initial state for a fresh UUID — present in
no directory, lock free. -/
def init : PodState :=
  { dirs := fun _ => false, lock := LockSt.free, created := false, deleted := false }

/-- A state of the lifecycle machine reachable from the initial state. -/
def Reachable (s : PodState) : Prop :=
  Relation.ReflTransGen Step init s

/-- The inductive invariant behind claim C1: the UUID names at most one
directory; before creation and after deletion it names none; between
creation and deletion it names exactly one. -/
def Inv (s : PodState) : Prop :=
  (∀ l₁ l₂, s.dirs l₁ = true → s.dirs l₂ = true → l₁ = l₂) ∧
  (s.created = false → (∀ l, s.dirs l = false) ∧ s.deleted = false) ∧
  (s.deleted = true → ∀ l, s.dirs l = false) ∧
  (s.created = true → s.deleted = false → ∃ l, s.dirs l = true)

theorem inv_init : Inv init := by
  refine ⟨?_, ?_, ?_, ?_⟩ <;> simp [init, Inv]

theorem inv_rename {s : PodState} (src dst : Loc) (hne : src ≠ dst)
    (hInv : Inv s) (hsrc : s.dirs src = true) :
    Inv (rename src dst s) := by
  obtain ⟨huniq, hnc, hdel, hex⟩ := hInv
  refine ⟨?_, ?_, ?_, ?_⟩
  · intro l₁ l₂ h₁ h₂
    simp only [rename] at h₁ h₂
    by_cases e₁ : l₁ = src
    · simp [e₁] at h₁
    · by_cases e₂ : l₂ = src
      · simp [e₂] at h₂
      · by_cases f₁ : l₁ = dst
        · by_cases f₂ : l₂ = dst
          · rw [f₁, f₂]
          · simp only [if_neg e₂, if_neg f₂] at h₂
            exact absurd (huniq l₂ src h₂ hsrc) e₂
        · simp only [if_neg e₁, if_neg f₁] at h₁
          exact absurd (huniq l₁ src h₁ hsrc) e₁
  · intro hc
    exact absurd ((hnc hc).1 src) (by simp [hsrc])
  · intro hd
    have := hdel hd src
    rw [hsrc] at this
    exact absurd this (by simp)
  · intro _ _
    refine ⟨dst, ?_⟩
    simp only [rename]
    rw [if_neg (Ne.symm hne)]
    simp

theorem inv_lockonly {s : PodState} (lk : LockSt) (hInv : Inv s) :
    Inv { s with lock := lk } := by
  obtain ⟨huniq, hnc, hdel, hex⟩ := hInv
  exact ⟨huniq, hnc, hdel, hex⟩

theorem inv_sweepDelete {s : PodState} (l : Loc)
    (hInv : Inv s) (hsrc : s.dirs l = true) :
    Inv (sweepDelete l s) := by
  obtain ⟨huniq, hnc, hdel, hex⟩ := hInv
  have hall : ∀ l', (sweepDelete l s).dirs l' = false := by
    intro l'
    simp only [sweepDelete]
    by_cases e : l' = l
    · simp [e]
    · simp only [if_neg e]
      cases hl : s.dirs l'
      · rfl
      · exact absurd (huniq l' l hl hsrc) e
  refine ⟨?_, ?_, ?_, ?_⟩
  · intro l₁ l₂ hl₁ hl₂
    rw [hall l₁] at hl₁
    cases hl₁
  · intro hc
    simp only [sweepDelete] at hc
    exact absurd ((hnc hc).1 l) (by simp [hsrc])
  · intro _
    exact hall
  · intro _ hd
    simp only [sweepDelete] at hd
    cases hd

theorem inv_step {s t : PodState} (hInv : Inv s) (hst : Step s t) : Inv t := by
  obtain ⟨huniq, hnc, hdel, hex⟩ := hInv
  cases hst with
  | createEmbryo h =>
      have hall := (hnc h).1
      have hd := (hnc h).2
      refine ⟨?_, ?_, ?_, ?_⟩
      · intro l₁ l₂ h₁ h₂
        simp only [Function.update_apply] at h₁ h₂
        by_cases e₁ : l₁ = Loc.embryo
        · by_cases e₂ : l₂ = Loc.embryo
          · rw [e₁, e₂]
          · rw [if_neg e₂, hall l₂] at h₂
            cases h₂
        · rw [if_neg e₁, hall l₁] at h₁
          cases h₁
      · intro hc; simp only at hc; cases hc
      · intro hd'; simp only at hd'; rw [hd] at hd'; cases hd'
      · intro _ _
        exact ⟨Loc.embryo, by simp [Function.update_apply]⟩
  | lockEmbryo h₁ h₂ => exact inv_lockonly _ ⟨huniq, hnc, hdel, hex⟩
  | renameEmbryoPrepare h₁ h₂ =>
      exact inv_rename _ _ (by decide) ⟨huniq, hnc, hdel, hex⟩ h₁
  | renamePreparePrepared h₁ h₂ =>
      exact inv_rename _ _ (by decide) ⟨huniq, hnc, hdel, hex⟩ h₁
  | releaseAfterPrepared h₁ h₂ => exact inv_lockonly _ ⟨huniq, hnc, hdel, hex⟩
  | renamePrepareRun h₁ h₂ =>
      exact inv_rename _ _ (by decide) ⟨huniq, hnc, hdel, hex⟩ h₁
  | prepareFailedStep h₁ h₂ => exact inv_lockonly _ ⟨huniq, hnc, hdel, hex⟩
  | lockPrepared h₁ h₂ => exact inv_lockonly _ ⟨huniq, hnc, hdel, hex⟩
  | renamePreparedRun h₁ h₂ =>
      exact inv_rename _ _ (by decide) ⟨huniq, hnc, hdel, hex⟩ h₁
  | processExit h => exact inv_lockonly _ ⟨huniq, hnc, hdel, hex⟩
  | gcMarkLock h₁ h₂ => exact inv_lockonly _ ⟨huniq, hnc, hdel, hex⟩
  | gcMarkRename h₁ h₂ =>
      exact inv_rename _ _ (by decide) ⟨huniq, hnc, hdel, hex⟩ h₁
  | sharedRelease h => exact inv_lockonly _ ⟨huniq, hnc, hdel, hex⟩
  | gcPrepareLock h₁ h₂ => exact inv_lockonly _ ⟨huniq, hnc, hdel, hex⟩
  | gcPrepareRename h₁ h₂ =>
      exact inv_rename _ _ (by decide) ⟨huniq, hnc, hdel, hex⟩ h₁
  | pulseLock h₁ h₂ => exact inv_lockonly _ ⟨huniq, hnc, hdel, hex⟩
  | sweepLockExited h₁ h₂ => exact inv_lockonly _ ⟨huniq, hnc, hdel, hex⟩
  | sweepDeleteExited h₁ h₂ => exact inv_sweepDelete _ ⟨huniq, hnc, hdel, hex⟩ h₁
  | sweepLockGarbage h₁ h₂ => exact inv_lockonly _ ⟨huniq, hnc, hdel, hex⟩
  | sweepDeleteGarbage h₁ h₂ => exact inv_sweepDelete _ ⟨huniq, hnc, hdel, hex⟩ h₁

theorem inv_reachable {s : PodState} (h : Reachable s) : Inv s := by
  induction h with
  | refl => exact inv_init
  | tail _ hstep ih => exact inv_step ih hstep

/-- C1: in every reachable state of the lifecycle state machine and
collector, the pod's UUID names a subdirectory in at most one of the six
top-level directories — never two at once — and, while the pod is alive
(created and not yet swept away by the collector), in exactly one. -/
theorem pod_location_unique (s : PodState) (h : Reachable s) :
    (∀ l₁ l₂, s.dirs l₁ = true → s.dirs l₂ = true → l₁ = l₂) ∧
    (s.created = true → s.deleted = false → ∃ l, s.dirs l = true) := by
  obtain ⟨huniq, _, _, hex⟩ := inv_reachable h
  exact ⟨huniq, hex⟩

/-- Witness for C1 at a concrete reachable state: the state reached after
`createEmbryo` followed by the `enterPrepare` lock acquisition. -/
theorem pod_location_unique_witness :
    ∃ s : PodState, Reachable s ∧ s.created = true ∧ s.deleted = false ∧
      ((∀ l₁ l₂, s.dirs l₁ = true → s.dirs l₂ = true → l₁ = l₂) ∧
       (s.created = true → s.deleted = false → ∃ l, s.dirs l = true)) := by
  refine ⟨{ init with dirs := Function.update init.dirs Loc.embryo true, created := true },
    Relation.ReflTransGen.single (Step.createEmbryo init rfl), rfl, rfl, ?_⟩
  exact pod_location_unique _ (Relation.ReflTransGen.single (Step.createEmbryo init rfl))

/-- C8: `prepareFailed` performs no rename — the pod directory remains at
`prepare/uuid` (and every other directory stays as it was), only the
exclusive lock is released, and the resulting unlocked-in-`prepare/` state
is exactly the prepare-failed signal the collector observes through a
shared-lock probe. -/
theorem prepareFailed_no_rename (s : PodState)
    (h₁ : s.dirs Loc.prepare = true) (_h₂ : s.lock = LockSt.excl) :
    (prepareFailed s).dirs = s.dirs ∧
    (prepareFailed s).created = s.created ∧
    (prepareFailed s).deleted = s.deleted ∧
    (prepareFailed s).lock = LockSt.free ∧
    (prepareFailed s).dirs Loc.prepare = true ∧
    failedPrepareObserved (prepareFailed s) = true := by
  refine ⟨rfl, rfl, rfl, rfl, h₁, ?_⟩
  simp [failedPrepareObserved, prepareFailed, sharedProbeOk, h₁]

/-- Witness for C8: a concrete preparing pod (in `prepare/`, exclusively
locked). -/
theorem prepareFailed_no_rename_witness :
    (let s : PodState :=
      { dirs := fun l => decide (l = Loc.prepare), lock := LockSt.excl,
        created := true, deleted := false }
     (prepareFailed s).dirs = s.dirs ∧
     (prepareFailed s).created = s.created ∧
     (prepareFailed s).deleted = s.deleted ∧
     (prepareFailed s).lock = LockSt.free ∧
     (prepareFailed s).dirs Loc.prepare = true ∧
     failedPrepareObserved (prepareFailed s) = true) :=
  prepareFailed_no_rename _ (by decide) rfl

end RktPods

namespace RktErrors

/-- Modelled from the spec §7: the error taxonomy of the lifecycle core. -/
inductive RktErr : Type
  | raceLost
  | busy
  | corruptState
  | fatalIO
  deriving DecidableEq, Repr

/-- Modelled from the spec §7 propagation policy: race-related failures are
resolved locally; only genuine inability to make progress (Fatal I/O,
CorruptState) surfaces to the caller. -/
def escalates : RktErr → Bool
  | RktErr.raceLost => false
  | RktErr.busy => false
  | RktErr.corruptState => true
  | RktErr.fatalIO => true

end RktErrors

namespace ResumeRace

open RktErrors

/-- Modelled from the spec: the filesystem and caller state of two
concurrent `resumeFromPrepared` (`rkt run-prepared`) invocations racing on
one prepared pod.  `res i = none` means invocation `i` has not run yet,
`some none` that it completed successfully, `some (some e)` that it
finished reporting `e`. -/
structure RaceState : Type where
  inPrepared : Bool
  inRun : Bool
  res : Fin 2 → Option (Option RktErr)

/-- Modelled from the spec §4.2/§5: one invocation's lock-then-rename
attempt on `prepared/uuid`.  Rename atomicity is the only serialization the
system relies on: "given two concurrent actors racing the identical rename,
exactly one observes success and the other observes source does not exist";
the loser treats the vanished source as `RaceLost` and changes nothing on
the filesystem. -/
def attempt (s : RaceState) (i : Fin 2) : RaceState :=
  if s.inPrepared then
    { s with inPrepared := false, inRun := true,
             res := Function.update s.res i (some none) }
  else
    { s with res := Function.update s.res i (some (some RktErr.raceLost)) }

/-- Modelled from the spec: the initial race state — the pod rests in
`prepared/`, neither invocation has run. -/
def raceInit : RaceState :=
  { inPrepared := true, inRun := false, res := fun _ => none }

/-- C2: for two concurrent `resumeFromPrepared` invocations on a prepared
pod, in either interleaving, exactly one transitions the pod from
`prepared/` to `run/`; the other observes `RaceLost` from its failed
rename, makes no filesystem change, and the failure is not propagated as
an error. -/
theorem resume_race (i j : Fin 2) (hij : i ≠ j) :
    (attempt (attempt raceInit i) j).inRun = true ∧
    (attempt (attempt raceInit i) j).inPrepared = false ∧
    (attempt (attempt raceInit i) j).res i = some none ∧
    (attempt (attempt raceInit i) j).res j = some (some RktErr.raceLost) ∧
    (attempt (attempt raceInit i) j).inPrepared = (attempt raceInit i).inPrepared ∧
    (attempt (attempt raceInit i) j).inRun = (attempt raceInit i).inRun ∧
    escalates RktErr.raceLost = false := by
  fin_cases i <;> fin_cases j <;> simp_all <;> decide

/-- Witness for C2 at the concrete pair of invocations 0 and 1. -/
theorem resume_race_witness :
    (0 : Fin 2) ≠ 1 ∧
    (attempt (attempt raceInit 0) 1).inRun = true ∧
    (attempt (attempt raceInit 0) 1).res 1 = some (some RktErr.raceLost) := by
  refine ⟨by decide, ?_, ?_⟩
  · exact (resume_race 0 1 (by decide)).1
  · exact (resume_race 0 1 (by decide)).2.2.2.1

end ResumeRace

namespace GcMark

open RktPods

/-- Modelled from the spec: an entry of `run/` as the collector's mark pass
finds it: its UUID and whether the owning process still holds the
exclusive lock (so that a non-blocking shared-lock probe would fail). -/
structure RunEntry : Type where
  uuid : Nat
  excl : Bool
  deriving DecidableEq, Repr

/-- Modelled from the spec: the observable lock/rename events of the mark
pass on one entry. -/
inductive MarkEv : Type
  | probeFailed (u : Nat)
  | lockShared (u : Nat)
  | renamed (u : Nat)
  | released (u : Nat)
  deriving DecidableEq, Repr

/-- Modelled from the spec §4.3, mark pass: "attempt a non-blocking shared
lock. If it fails (pod alive), skip. If it succeeds, rename `run/uuid` →
`exited-garbage/uuid`, then release the lock immediately."  Returns the
entry's directory after the pass and the event trace. -/
def markEntry (e : RunEntry) : Loc × List MarkEv :=
  if e.excl then
    (Loc.run, [MarkEv.probeFailed e.uuid])
  else
    (Loc.exitedGarbage,
     [MarkEv.lockShared e.uuid, MarkEv.renamed e.uuid, MarkEv.released e.uuid])

/-- Modelled from the spec: the mark pass examines every entry of `run/`
in turn. -/
def markPass (es : List RunEntry) : List (RunEntry × Loc) :=
  es.map (fun e => (e, (markEntry e).1))

/-- C3: for every entry the mark pass examines, a failed shared-lock probe
leaves the entry in `run/` untouched; a successful probe renames it to
`exited-garbage/` with the lock released immediately after the rename (the
event following `renamed` is `released`, and the trace ends there); hence
no entry whose shared-lock probe would currently fail is ever moved. -/
theorem mark_pass_spec (es : List RunEntry) (e : RunEntry) (l : Loc)
    (h : (e, l) ∈ markPass es) :
    (e.excl = true → l = Loc.run ∧ (markEntry e).2 = [MarkEv.probeFailed e.uuid]) ∧
    (e.excl = false → l = Loc.exitedGarbage ∧
      (markEntry e).2 =
        [MarkEv.lockShared e.uuid, MarkEv.renamed e.uuid, MarkEv.released e.uuid]) ∧
    (l = Loc.exitedGarbage → e.excl = false) := by
  have hl : l = (markEntry e).1 := by
    simp only [markPass, List.mem_map] at h
    obtain ⟨e', he', heq⟩ := h
    have h1 : e' = e := congrArg Prod.fst heq
    have h2 : (markEntry e').1 = l := congrArg Prod.snd heq
    rw [h1] at h2
    exact h2.symm
  subst hl
  cases he : e.excl <;> simp [markEntry, he]

/-- Witness for C3: a mark pass over one live and one exited pod. -/
theorem mark_pass_spec_witness :
    (let live : RunEntry := { uuid := 1, excl := true }
     let dead : RunEntry := { uuid := 2, excl := false }
     (live, Loc.run) ∈ markPass [live, dead] ∧
     ((live.excl = true → Loc.run = Loc.run ∧
        (markEntry live).2 = [MarkEv.probeFailed live.uuid]) ∧
      (live.excl = false → Loc.run = Loc.exitedGarbage ∧
        (markEntry live).2 =
          [MarkEv.lockShared live.uuid, MarkEv.renamed live.uuid,
           MarkEv.released live.uuid]) ∧
      (Loc.run = Loc.exitedGarbage → live.excl = false))) := by
  refine ⟨by decide, ?_⟩
  exact mark_pass_spec [{ uuid := 1, excl := true }, { uuid := 2, excl := false }]
    { uuid := 1, excl := true } Loc.run (by decide)

end GcMark

namespace GcSweep

/-- Modelled from the spec §4.3: the sweep grace period defaults to 30
minutes (in seconds here), operator-configurable via `--grace-period`. -/
def defaultGracePeriod : Nat := 30 * 60

/-- Modelled from the spec: an entry of `exited-garbage/` (or `garbage/`)
as the sweep pass finds it: the directory change time stamped by the mark
rename, and whether a non-blocking exclusive lock acquisition would
currently fail (a status query or a concurrent collector holds a lock). -/
structure GarbageEntry : Type where
  ctime : Nat
  lockBusy : Bool
  deriving DecidableEq, Repr

/-- Modelled from the spec §4.3, sweep pass: examine one UUID's slot in
`exited-garbage/`.  `none` means the directory is gone.  "If
`now - change_time < gracePeriod`, skip.  Otherwise attempt a non-blocking
exclusive lock; if it fails, skip.  If it succeeds, recursively delete the
directory tree."  The Boolean reports whether this invocation deleted it. -/
def sweepEntry (grace now : Nat) : Option GarbageEntry → Option GarbageEntry × Bool
  | none => (none, false)
  | some e =>
      if now - e.ctime < grace then (some e, false)
      else if e.lockBusy then (some e, false)
      else (none, true)

/-- Modelled from the spec: repeated sweep invocations at the given
times. -/
def sweepMany (grace : Nat) (times : List Nat) (s : Option GarbageEntry) :
    Option GarbageEntry :=
  times.foldl (fun s t => (sweepEntry grace t s).1) s

/-- C4: arbitrarily many sweep invocations whose times all fall inside the
grace period never delete the entry; once the grace period has elapsed, a
sweep that acquires the exclusive lock deletes the directory exactly once,
and any subsequent sweep finds nothing for that UUID. -/
theorem sweep_grace_idempotent (grace : Nat) (e : GarbageEntry) (times : List Nat)
    (now later : Nat)
    (hyoung : ∀ t ∈ times, t - e.ctime < grace)
    (hold : grace ≤ now - e.ctime)
    (hfree : e.lockBusy = false) :
    sweepMany grace times (some e) = some e ∧
    sweepEntry grace now (some e) = (none, true) ∧
    sweepEntry grace later none = (none, false) := by
  refine ⟨?_, ?_, rfl⟩
  · induction times with
    | nil => rfl
    | cons t ts ih =>
        have ht : t - e.ctime < grace := hyoung t (List.mem_cons_self t ts)
        have hstep : (sweepEntry grace t (some e)).1 = some e := by
          simp [sweepEntry, ht]
        simp only [sweepMany, List.foldl_cons, hstep]
        exact ih (fun t' ht' => hyoung t' (List.mem_cons_of_mem t ht'))
  · have hnotyoung : ¬(now - e.ctime < grace) := not_lt_of_le hold
    simp [sweepEntry, hnotyoung, hfree]

/-- Witness for C4: grace 1800 s, mark time 100, sweeps at 200 and 1000
(young), delete at 1900, nothing left at 2000. -/
theorem sweep_grace_idempotent_witness :
    ((∀ t ∈ [200, 1000], t - 100 < 1800) ∧ 1800 ≤ 1900 - 100) ∧
    sweepMany 1800 [200, 1000] (some { ctime := 100, lockBusy := false }) =
      some { ctime := 100, lockBusy := false } ∧
    sweepEntry 1800 1900 (some { ctime := 100, lockBusy := false }) = (none, true) ∧
    sweepEntry 1800 2000 none = (none, false) := by
  refine ⟨⟨by decide, by decide⟩, ?_⟩
  exact sweep_grace_idempotent 1800 { ctime := 100, lockBusy := false }
    [200, 1000] 1900 2000 (by decide) (by decide) rfl

end GcSweep

namespace Pulse

open RktPods

/-- Modelled from the spec §4.4: the result values of `queryPhase`. -/
inductive Phase : Type
  | NotFound
  | Preparing
  | PrepareFailed
  | Prepared
  | Running
  | Exited
  | Deleting
  deriving DecidableEq, Repr

/-- Modelled from the spec: lock events performed by the pulse query. -/
inductive LockEv : Type
  | probeBusy
  | acquiredShared
  | released
  deriving DecidableEq, Repr

/-- Modelled from the spec §4.4: `queryPhase` checks the UUID's presence in
each top-level directory in a fixed priority order and disambiguates the
ambiguous directories with a non-blocking shared-lock probe: acquisition
failure means the exclusive holder is alive, success samples the unlocked
state, and the shared lock is released immediately after sampling.
Returns the inferred phase and the trace of lock events. -/
def queryPhase (s : PodState) : Phase × List LockEv :=
  if s.dirs Loc.prepare then
    if s.lock = LockSt.excl then (Phase.Preparing, [LockEv.probeBusy])
    else (Phase.PrepareFailed, [LockEv.acquiredShared, LockEv.released])
  else if s.dirs Loc.prepared then (Phase.Prepared, [])
  else if s.dirs Loc.run then
    if s.lock = LockSt.excl then (Phase.Running, [LockEv.probeBusy])
    else (Phase.Exited, [LockEv.acquiredShared, LockEv.released])
  else if s.dirs Loc.exitedGarbage then
    if s.lock = LockSt.excl then (Phase.Deleting, [LockEv.probeBusy])
    else (Phase.Deleting, [LockEv.acquiredShared, LockEv.released])
  else if s.dirs Loc.garbage then
    if s.lock = LockSt.excl then (Phase.Deleting, [LockEv.probeBusy])
    else (Phase.Deleting, [LockEv.acquiredShared, LockEv.released])
  else (Phase.NotFound, [])

/-- Number of shared locks still held after a trace of pulse lock events. -/
def heldAfter (evs : List LockEv) : Nat :=
  evs.foldl
    (fun n ev =>
      match ev with
      | LockEv.probeBusy => n
      | LockEv.acquiredShared => n + 1
      | LockEv.released => n - 1)
    0

/-- C5: for a UUID present in `run/` (and, per the C1 invariant, nowhere
earlier in the priority order), `queryPhase` reports `Running` exactly when
the non-blocking shared-lock probe fails (exclusive lock held) and `Exited`
exactly when it succeeds, and in every case it holds no lock at its own
return. -/
theorem queryPhase_run (s : PodState)
    (hrun : s.dirs Loc.run = true)
    (hpre : s.dirs Loc.prepare = false)
    (hpred : s.dirs Loc.prepared = false) :
    (queryPhase s).1 = (if s.lock = LockSt.excl then Phase.Running else Phase.Exited) ∧
    ((queryPhase s).1 = Phase.Running ↔ sharedProbeOk s = false) ∧
    ((queryPhase s).1 = Phase.Exited ↔ sharedProbeOk s = true) ∧
    heldAfter (queryPhase s).2 = 0 := by
  by_cases hx : s.lock = LockSt.excl
  · simp [queryPhase, hrun, hpre, hpred, hx, sharedProbeOk, heldAfter]
  · simp [queryPhase, hrun, hpre, hpred, hx, sharedProbeOk, heldAfter]

/-- Witness for C5: an exited pod — in `run/` with the lock free. -/
theorem queryPhase_run_witness :
    (let s : PodState :=
      { dirs := fun l => decide (l = Loc.run), lock := LockSt.free,
        created := true, deleted := false }
     (queryPhase s).1 = (if s.lock = LockSt.excl then Phase.Running else Phase.Exited) ∧
     ((queryPhase s).1 = Phase.Running ↔ sharedProbeOk s = false) ∧
     ((queryPhase s).1 = Phase.Exited ↔ sharedProbeOk s = true) ∧
     heldAfter (queryPhase s).2 = 0) :=
  queryPhase_run _ (by decide) (by decide) (by decide)

end Pulse

namespace Stage0

/-- An application environment, `types.Environment` of the vendored appc
schema: an ordered list of name/value pairs. -/
def Env : Type := List (String × String)

/-- `types.Environment.Set` of the vendored appc schema (a collaborator of
`stage0/run.go`): overwrite the value of an existing variable in place,
else append the new variable at the end. -/
def envSet (e : Env) (n v : String) : Env :=
  match e with
  | [] => [(n, v)]
  | (n', v') :: rest => if n' = n then (n, v) :: rest else (n', v') :: envSet rest n v

/-- `types.Environment.Get` of the vendored appc schema: the value of the
first variable with the given name, if any. -/
def envGet (e : Env) (n : String) : Option String :=
  match e with
  | [] => none
  | (n', v') :: rest => if n' = n then some v' else envGet rest n

/-- `strings.SplitN(ev, "=", 2)` as used by `MergeEnvs` in
`stage0/run.go`: the part before the first `=` and the remainder after it.
`none` models the entry without any `=`, where the Go code's `pair[1]`
would index out of range. -/
def splitEqAux : List Char → Option (List Char × List Char)
  | [] => none
  | c :: cs =>
      if c = '=' then some ([], cs)
      else (splitEqAux cs).map (fun p => (c :: p.1, p.2))

/-- String-level wrapper of `splitEqAux`. -/
def splitEq (s : String) : Option (String × String) :=
  (splitEqAux s.toList).map (fun p => (String.mk p.1, String.mk p.2))

/-- The first loop of `MergeEnvs` (`stage0/run.go:90`): set every entry of
`setEnv` into the app environment, overwriting existing values. -/
def setAll (e : Env) : List String → Option Env
  | [] => some e
  | ev :: rest =>
      match splitEq ev with
      | none => none
      | some (n, v) => setAll (envSet e n v) rest

/-- The second loop of `MergeEnvs` (`stage0/run.go:96`): for each process
environment entry, add it only when no variable of that name is already
present. -/
def inheritAll (e : Env) : List String → Option Env
  | [] => some e
  | ev :: rest =>
      match splitEq ev with
      | none => none
      | some (n, v) =>
          match envGet e n with
          | some _ => inheritAll e rest
          | none => inheritAll (envSet e n v) rest

/-- `MergeEnvs` from `stage0/run.go`, with the process environment
`os.Environ()` passed explicitly.  `none` models the index-out-of-range
panic on an entry without `=`. -/
def mergeEnvs (appEnv : Env) (inheritEnv : Bool) (setEnv osEnviron : List String) :
    Option Env :=
  match setAll appEnv setEnv with
  | none => none
  | some e₁ => if inheritEnv then inheritAll e₁ osEnviron else some e₁

/-- The value the `setEnv` loop leaves for a name: the value of the last
entry of `setEnv` naming it (later entries overwrite earlier ones). -/
def lastSetVal : List String → String → Option String
  | [], _ => none
  | ev :: rest, n =>
      match splitEq ev with
      | none => lastSetVal rest n
      | some (n', v) =>
          match lastSetVal rest n with
          | some w => some w
          | none => if n' = n then some v else none

/-- The value the inherit loop would take for a name: the value of the
first process-environment entry naming it. -/
def firstOsVal : List String → String → Option String
  | [], _ => none
  | ev :: rest, n =>
      match splitEq ev with
      | none => firstOsVal rest n
      | some (n', v) => if n' = n then some v else firstOsVal rest n

theorem envGet_envSet (e : Env) (n v m : String) :
    envGet (envSet e n v) m = if n = m then some v else envGet e m := by
  induction e with
  | nil =>
      by_cases h : n = m <;> simp [envSet, envGet, h]
  | cons hd tl ih =>
      obtain ⟨n', v'⟩ := hd
      by_cases h1 : n' = n
      · subst h1
        by_cases h2 : n' = m <;> simp [envSet, envGet, h2]
      · by_cases h2 : n' = m
        · have h3 : ¬n = m := fun hc => h1 (h2.trans hc.symm)
          have h4 : ¬m = n := fun hc => h1 (h2.trans hc)
          simp [envSet, envGet, h1, h2, h3, h4]
        · simp [envSet, envGet, h1, h2, ih]

theorem setAll_spec (l : List String) (e : Env)
    (hwf : ∀ ev ∈ l, (splitEq ev).isSome) :
    ∃ e', setAll e l = some e' ∧
      ∀ n, envGet e' n =
        (match lastSetVal l n with
         | some v => some v
         | none => envGet e n) := by
  induction l generalizing e with
  | nil => exact ⟨e, rfl, fun n => rfl⟩
  | cons ev rest ih =>
      have hev : (splitEq ev).isSome := hwf ev (List.mem_cons_self ev rest)
      obtain ⟨⟨n', v⟩, hsp⟩ := Option.isSome_iff_exists.mp hev
      obtain ⟨e', he', hval⟩ :=
        ih (envSet e n' v) (fun ev' hm => hwf ev' (List.mem_cons_of_mem ev hm))
      refine ⟨e', ?_, ?_⟩
      · simp [setAll, hsp, he']
      · intro n
        rw [hval n]
        simp only [lastSetVal, hsp]
        cases hrest : lastSetVal rest n with
        | some w => rfl
        | none =>
            rw [envGet_envSet]
            by_cases h : n' = n <;> simp [h]

theorem inheritAll_spec (l : List String) (e : Env)
    (hwf : ∀ ev ∈ l, (splitEq ev).isSome) :
    ∃ e', inheritAll e l = some e' ∧
      ∀ n, envGet e' n =
        (match envGet e n with
         | some v => some v
         | none => firstOsVal l n) := by
  induction l generalizing e with
  | nil =>
      refine ⟨e, rfl, fun n => ?_⟩
      cases envGet e n <;> rfl
  | cons ev rest ih =>
      have hev : (splitEq ev).isSome := hwf ev (List.mem_cons_self ev rest)
      obtain ⟨⟨n', v⟩, hsp⟩ := Option.isSome_iff_exists.mp hev
      have hwf' : ∀ ev' ∈ rest, (splitEq ev').isSome :=
        fun ev' hm => hwf ev' (List.mem_cons_of_mem ev hm)
      cases hg : envGet e n' with
      | some w =>
          obtain ⟨e', he', hval⟩ := ih e hwf'
          refine ⟨e', ?_, ?_⟩
          · simp [inheritAll, hsp, hg, he']
          · intro n
            rw [hval n]
            simp only [firstOsVal, hsp]
            by_cases h : n' = n
            · subst h
              rw [hg]
            · simp [h]
      | none =>
          obtain ⟨e', he', hval⟩ := ih (envSet e n' v) hwf'
          refine ⟨e', ?_, ?_⟩
          · simp [inheritAll, hsp, hg, he']
          · intro n
            rw [hval n]
            rw [envGet_envSet]
            simp only [firstOsVal, hsp]
            by_cases h : n' = n
            · subst h
              rw [hg]
              simp
            · simp [h]

/-- C9: `MergeEnvs` first sets every `setEnv` entry (split at its first
`=`) into the app environment, overwriting existing values, and only when
`inheritEnv` is true adds process-environment variables not already
present: the last `setEnv` entry for a name always wins; app-environment
values not named by `setEnv` survive inheritance unchanged; inherited
variables fill only names absent after the set phase; and with
`inheritEnv = false` the process environment is ignored entirely. -/
theorem mergeEnvs_spec (appEnv : Env) (inheritEnv : Bool)
    (setEnv osEnviron : List String)
    (hset : ∀ ev ∈ setEnv, (splitEq ev).isSome)
    (hos : ∀ ev ∈ osEnviron, (splitEq ev).isSome) :
    ∃ res, mergeEnvs appEnv inheritEnv setEnv osEnviron = some res ∧
      (∀ n v, lastSetVal setEnv n = some v → envGet res n = some v) ∧
      (∀ n v, lastSetVal setEnv n = none → envGet appEnv n = some v →
        envGet res n = some v) ∧
      (∀ n v, inheritEnv = true → lastSetVal setEnv n = none →
        envGet appEnv n = none → firstOsVal osEnviron n = some v →
        envGet res n = some v) ∧
      (inheritEnv = false →
        mergeEnvs appEnv false setEnv osEnviron = mergeEnvs appEnv false setEnv []) := by
  obtain ⟨e₁, he₁, hv₁⟩ := setAll_spec setEnv appEnv hset
  have hignore : mergeEnvs appEnv false setEnv osEnviron = mergeEnvs appEnv false setEnv [] := by
    simp [mergeEnvs, he₁]
  cases inheritEnv with
  | false =>
      refine ⟨e₁, by simp [mergeEnvs, he₁], ?_, ?_, ?_, fun _ => hignore⟩
      · intro n v hlast
        rw [hv₁ n, hlast]
      · intro n v hlast happ
        rw [hv₁ n, hlast, happ]
      · intro n v hcontra
        cases hcontra
  | true =>
      obtain ⟨e₂, he₂, hv₂⟩ := inheritAll_spec osEnviron e₁ hos
      refine ⟨e₂, by simp [mergeEnvs, he₁, he₂], ?_, ?_, ?_, fun hc => by cases hc⟩
      · intro n v hlast
        have h1 : envGet e₁ n = some v := by rw [hv₁ n, hlast]
        rw [hv₂ n, h1]
      · intro n v hlast happ
        have h1 : envGet e₁ n = some v := by rw [hv₁ n, hlast, happ]
        rw [hv₂ n, h1]
      · intro n v _ hlast happ hos'
        have h1 : envGet e₁ n = none := by rw [hv₁ n, hlast, happ]
        rw [hv₂ n, h1, hos']

/-- Witness for C9: explicit variables `A=1, B=2, A=3` with an inherited
environment `A=9, C=7` on an app environment `B=0`. -/
theorem mergeEnvs_spec_witness :
    (∀ ev ∈ ["A=1", "B=2", "A=3"], (splitEq ev).isSome) ∧
    ∃ res, mergeEnvs [("B", "0")] true ["A=1", "B=2", "A=3"] ["A=9", "C=7"] = some res ∧
      envGet res "A" = some "3" := by
  refine ⟨by decide, ?_⟩
  obtain ⟨res, hres, hlast, _, _, _⟩ :=
    mergeEnvs_spec [("B", "0")] true ["A=1", "B=2", "A=3"] ["A=9", "C=7"]
      (by decide) (by decide)
  exact ⟨res, hres, hlast "A" "3" (by decide)⟩

/-- `common.PodManifestPath(dir)`'s file name inside the pod directory
(the `common` package is a collaborator of `stage0/run.go`). -/
def podManifestFile : String := "pod"

/-- `common.Stage1IDFilename` inside the pod directory. -/
def stage1IDFile : String := "stage1ID"

/-- `common.OverlayPreparedFilename`, the overlay marker inside the pod
directory. -/
def overlayPreparedFile : String := "overlay-prepared"

/-- Add a file name to the pod directory's top-level contents (writing an
existing file leaves one directory entry). -/
def addFile (files : List String) (name : String) : List String :=
  if name ∈ files then files else files ++ [name]

/-- An app image manifest as `Prepare`'s loop consumes it: the app name,
whether the image has an `app` section, and its environment. -/
structure AppManifest : Type where
  name : String
  hasApp : Bool
  env : Env

/-- Config fields of `PrepareConfig` (`stage0/run.go:49`) that
`Prepare`'s control flow reads. -/
structure PrepareConfig : Type where
  inheritEnv : Bool
  explicitEnv : List String
  useOverlay : Bool

/-- Results of the external calls `Prepare` makes, in program order:
`prepareStage1Image`, one `prepareAppImage` per image, `json.Marshal`,
the two `ioutil.WriteFile`s and `os.Create` (the collaborators themselves
are out of scope; they populate subdirectories of the pod directory and do
not touch its three top-level metadata files). -/
structure PrepareOracle : Type where
  stage1Err : Option String
  imageResults : List (Except String AppManifest)
  osEnviron : List String
  marshalOk : Bool
  writeManifestOk : Bool
  writeStage1IDOk : Bool
  createOverlayOk : Bool

/-- The image loop of `Prepare` (`stage0/run.go:127`): each image's
manifest is fetched, duplicate app names and missing app sections are
errors, and `MergeEnvs` runs when the config inherits or sets variables
(its out-of-range panic modelled as an error result). -/
def appsLoop (cfg : PrepareConfig) (osEnv : List String) :
    List (Except String AppManifest) → List String → Except String Unit
  | [], _ => Except.ok ()
  | r :: rest, names =>
      match r with
      | Except.error e => Except.error e
      | Except.ok am =>
          if am.name ∈ names then Except.error "multiple apps with same name"
          else if am.hasApp = false then Except.error "image has no app section"
          else if cfg.inheritEnv || decide (cfg.explicitEnv.length > 0) then
            match mergeEnvs am.env cfg.inheritEnv cfg.explicitEnv osEnv with
            | none => Except.error "malformed environment entry"
            | some _ => appsLoop cfg osEnv rest (names ++ [am.name])
          else appsLoop cfg osEnv rest (names ++ [am.name])

/-- `Prepare` from `stage0/run.go:106`, tracking the top-level contents of
the pod directory: after stage1 preparation and the image loop, the pod
manifest is written, then the stage1 image id file, and — exactly when
`cfg.UseOverlay` — the overlay marker file is created; any failing step
aborts with its error. -/
def prepare (cfg : PrepareConfig) (o : PrepareOracle) (files : List String) :
    Except String (List String) :=
  match o.stage1Err with
  | some e => Except.error e
  | none =>
      match appsLoop cfg o.osEnviron o.imageResults [] with
      | Except.error e => Except.error e
      | Except.ok _ =>
          if o.marshalOk = false then Except.error "error marshalling pod manifest"
          else if o.writeManifestOk = false then Except.error "error writing pod manifest"
          else
            let files₁ := addFile files podManifestFile
            if o.writeStage1IDOk = false then Except.error "error writing stage1 ID"
            else
              let files₂ := addFile files₁ stage1IDFile
              if cfg.useOverlay then
                if o.createOverlayOk = false then Except.error "error writing overlay marker file"
                else Except.ok (addFile files₂ overlayPreparedFile)
              else Except.ok files₂

theorem mem_addFile (files : List String) (a b : String) :
    a ∈ addFile files b ↔ a = b ∨ a ∈ files := by
  by_cases h : b ∈ files
  · simp only [addFile, if_pos h]
    constructor
    · exact fun ha => Or.inr ha
    · rintro (rfl | ha)
      · exact h
      · exact ha
  · simp [addFile, if_neg h, List.mem_append]
    tauto

/-- C7: whenever `Prepare` returns without error on a pod directory that
does not already carry an overlay marker, the directory afterwards
contains the pod manifest file and the stage1 image id file, and contains
the overlay marker file exactly when `cfg.UseOverlay` is true. -/
theorem prepare_files (cfg : PrepareConfig) (o : PrepareOracle)
    (files res : List String)
    (h : prepare cfg o files = Except.ok res)
    (hov : overlayPreparedFile ∉ files) :
    podManifestFile ∈ res ∧ stage1IDFile ∈ res ∧
      (overlayPreparedFile ∈ res ↔ cfg.useOverlay = true) := by
  unfold prepare at h
  cases hst : o.stage1Err with
  | some e => rw [hst] at h; cases h
  | none =>
  rw [hst] at h
  cases hloop : appsLoop cfg o.osEnviron o.imageResults [] with
  | error e => rw [hloop] at h; cases h
  | ok u =>
  rw [hloop] at h
  cases hm : o.marshalOk with
  | false => simp [hm] at h
  | true =>
  cases hw1 : o.writeManifestOk with
  | false => simp [hm, hw1] at h
  | true =>
  cases hw2 : o.writeStage1IDOk with
  | false => simp [hm, hw1, hw2] at h
  | true =>
  cases hob : cfg.useOverlay with
  | false =>
      simp only [hm, hw1, hw2, hob, Bool.false_eq_true, if_false, if_neg, ite_false] at h
      have hres : res = addFile (addFile files podManifestFile) stage1IDFile := by
        cases h; rfl
      subst hres
      refine ⟨?_, ?_, ?_⟩
      · rw [mem_addFile, mem_addFile]
        exact Or.inr (Or.inl rfl)
      · rw [mem_addFile]
        exact Or.inl rfl
      · simp only [Bool.false_eq_true, iff_false]
        rw [mem_addFile, mem_addFile]
        push_neg
        exact ⟨by decide, by decide, hov⟩
  | true =>
  cases hc : o.createOverlayOk with
  | false => simp [hm, hw1, hw2, hob, hc] at h
  | true =>
      simp only [hm, hw1, hw2, hob, hc, Bool.true_eq_false, if_true, ite_false] at h
      have hres : res = addFile (addFile (addFile files podManifestFile) stage1IDFile)
          overlayPreparedFile := by
        cases h; rfl
      subst hres
      refine ⟨?_, ?_, ?_⟩
      · rw [mem_addFile, mem_addFile, mem_addFile]
        exact Or.inr (Or.inr (Or.inl rfl))
      · rw [mem_addFile, mem_addFile]
        exact Or.inr (Or.inl rfl)
      · simp only [iff_true]
        rw [mem_addFile]
        exact Or.inl rfl

/-- The concrete overlay `PrepareConfig` of the C7 witness. -/
def prepareCfgW : PrepareConfig :=
  { inheritEnv := false, explicitEnv := [], useOverlay := true }

/-- The concrete all-successful single-image oracle of the C7 witness. -/
def prepareOracleW : PrepareOracle :=
  { stage1Err := none,
    imageResults := [Except.ok { name := "app1", hasApp := true, env := [] }],
    osEnviron := [], marshalOk := true, writeManifestOk := true,
    writeStage1IDOk := true, createOverlayOk := true }

/-- Witness for C7: a successful overlay prepare of a single app image on
an empty pod directory. -/
theorem prepare_files_witness :
    ∃ res, prepare prepareCfgW prepareOracleW [] = Except.ok res ∧
      (podManifestFile ∈ res ∧ stage1IDFile ∈ res ∧
        (overlayPreparedFile ∈ res ↔ prepareCfgW.useOverlay = true)) := by
  have hp : prepare prepareCfgW prepareOracleW [] =
      Except.ok [podManifestFile, stage1IDFile, overlayPreparedFile] := by rfl
  refine ⟨_, hp, ?_⟩
  exact prepare_files prepareCfgW prepareOracleW [] _ hp (by decide)

/-- `common.EnvLockFd`, the well-known environment variable naming the
lock file descriptor (value per the lifecycle document: `RKT_LOCK_FD`). -/
def EnvLockFd : String := "RKT_LOCK_FD"

/-- Config fields of `RunConfig` (`stage0/run.go:60`) that `Run`'s control
flow reads. -/
structure RunConfig : Type where
  privateNet : Bool
  spawnMetadataService : Bool
  lockFd : Int
  interactive : Bool
  debug : Bool
  uuid : String

/-- The process state `Run` mutates: its environment (read back by
`os.Environ()` at exec time) and the per-descriptor close-on-exec flag. -/
structure OSState : Type where
  env : Env
  cloexec : Int → Bool

/-- Results of the external calls `Run` makes, in program order; a `false`
or `error` value models the call failing (upon which the Go code calls
`log.Fatalf` and the process dies without exec'ing). `metadataOk` is the
one failure `Run` only logs. -/
structure RunOracle : Type where
  overlayRes : Except String Bool
  unshareOk : Bool
  mountSlaveOk : Bool
  mountSharedOk : Bool
  setupStage1Ok : Bool
  setupAppsOk : Bool
  setenvOk : Bool
  metadataOk : Bool
  chdirOk : Bool
  entrypointRes : Except String String
  closeOnExecOk : Bool

/-- The exec of the stage1 entrypoint: argv and the environment passed to
`syscall.Exec(args[0], args, os.Environ())`. -/
structure ExecCall : Type where
  argv : List String
  env : Env

/-- `Run` from `stage0/run.go:212`: determine overlay use, set up mounts
and images, publish the lock descriptor number in the `RKT_LOCK_FD`
environment variable, build the stage1 argv, clear close-on-exec on the
lock descriptor so it survives the exec, and exec the entrypoint.  An
`error` result models `log.Fatalf` terminating the process before exec. -/
def runStage0 (cfg : RunConfig) (o : RunOracle) (s : OSState) :
    Except String (OSState × ExecCall) :=
  match o.overlayRes with
  | Except.error e => Except.error e
  | Except.ok useOverlay =>
      if useOverlay && !o.unshareOk then Except.error "error unsharing"
      else if useOverlay && !o.mountSlaveOk then Except.error "error making / a slave mount"
      else if useOverlay && !o.mountSharedOk then
        Except.error "error making / a shared and slave mount"
      else if o.setupStage1Ok = false then Except.error "error setting up stage1"
      else if o.setupAppsOk = false then Except.error "error setting up app image"
      else if o.setenvOk = false then Except.error "setting lock fd environment"
      else if o.chdirOk = false then Except.error "failed changing to dir"
      else
        match o.entrypointRes with
        | Except.error e => Except.error e
        | Except.ok ep =>
            if o.closeOnExecOk = false then Except.error "error clearing FD_CLOEXEC on lock fd"
            else
              Except.ok
                ({ env := envSet s.env EnvLockFd (toString cfg.lockFd)
                 , cloexec := fun fd => if fd = cfg.lockFd then false else s.cloexec fd },
                 { argv := [ep] ++ (if cfg.debug then ["--debug"] else [])
                     ++ (if cfg.privateNet then ["--private-net"] else [])
                     ++ (if cfg.interactive then ["--interactive"] else [])
                     ++ [cfg.uuid]
                 , env := envSet s.env EnvLockFd (toString cfg.lockFd) })

set_option maxHeartbeats 1600000 in
/-- C6: whenever `Run` reaches the exec of the stage1 entrypoint, the
environment it passes along carries `RKT_LOCK_FD` bound to the decimal of
`cfg.LockFd` (set before the exec), and close-on-exec has been cleared on
that descriptor, so the inherited lock file descriptor stays open across
the exec. -/
theorem run_lock_fd (cfg : RunConfig) (o : RunOracle) (s : OSState)
    (s' : OSState) (call : ExecCall)
    (h : runStage0 cfg o s = Except.ok (s', call)) :
    envGet s'.env EnvLockFd = some (toString cfg.lockFd) ∧
    call.env = s'.env ∧
    s'.cloexec cfg.lockFd = false := by
  unfold runStage0 at h
  repeat' split at h
  any_goals exact Except.noConfusion h
  all_goals
    injection h with hpair
    have hs : s' =
        { env := envSet s.env EnvLockFd (toString cfg.lockFd),
          cloexec := fun fd => if fd = cfg.lockFd then false else s.cloexec fd } :=
      (congrArg Prod.fst hpair).symm
    have hc : call =
        { argv := _,
          env := envSet s.env EnvLockFd (toString cfg.lockFd) } :=
      (congrArg Prod.snd hpair).symm
    refine ⟨?_, ?_, ?_⟩
    · rw [hs]
      simp only
      rw [envGet_envSet]
      simp
    · rw [hs, hc]
    · rw [hs]
      simp

/-- The concrete `RunConfig` of the C6 witness: lock descriptor 3. -/
def runCfgW : RunConfig :=
  { privateNet := false, spawnMetadataService := false, lockFd := 3,
    interactive := false, debug := false, uuid := "u" }

/-- The concrete all-successful oracle of the C6 witness. -/
def runOracleW : RunOracle :=
  { overlayRes := Except.ok false, unshareOk := true, mountSlaveOk := true,
    mountSharedOk := true, setupStage1Ok := true, setupAppsOk := true,
    setenvOk := true, metadataOk := true, chdirOk := true,
    entrypointRes := Except.ok "init", closeOnExecOk := true }

/-- The concrete initial process state of the C6 witness. -/
def runStateW : OSState := { env := [], cloexec := fun _ => true }

/-- Witness for C6: a concrete successful run with lock descriptor 3. -/
theorem run_lock_fd_witness :
    ∃ s' call, runStage0 runCfgW runOracleW runStateW = Except.ok (s', call) ∧
      (envGet s'.env EnvLockFd = some (toString runCfgW.lockFd) ∧
       call.env = s'.env ∧
       s'.cloexec runCfgW.lockFd = false) := by
  refine ⟨_, _, rfl, ?_⟩
  exact run_lock_fd runCfgW runOracleW runStateW _ _ rfl

end Stage0

namespace Cas

/-- `hashPrefix` from `cas/cas.go`: every store key begins `sha512-`
(keys as character lists). -/
def hashPrefixChars : List Char := ['s', 'h', 'a', '5', '1', '2', '-']

/-- `lenHash` from `cas/cas.go`: `sha512.Size`, the raw byte size. -/
def lenHash : Nat := 64

/-- `lenHashKey` from `cas/cas.go`: half of the hash, in hex characters. -/
def lenHashKey : Nat := (lenHash / 2) * 2

/-- `lenKey` from `cas/cas.go`: full key length. -/
def lenKey : Nat := hashPrefixChars.length + lenHashKey

/-- `minlenKey` from `cas/cas.go`: at least `sha512-aa`. -/
def minlenKey : Nat := hashPrefixChars.length + 2

/-- A stored ACI record, reduced to the one field `ResolveKey` reads. -/
structure ACIInfo : Type where
  blobKey : List Char
  deriving DecidableEq, Repr

/-- Modelled from the spec: `GetACIInfosWithKeyPrefix` lives in the
database layer, which is not among the files at hand; it returns the
stored ACI infos whose blob key starts with the given key. -/
def getACIInfosWithKeyPfx (stored : List ACIInfo) (key : List Char) : List ACIInfo :=
  stored.filter (fun info => key.isPrefixOf info.blobKey)

/-- The four distinct errors `ResolveKey` can return: wrong key prefix,
key too short, no keys found, ambiguous key. -/
inductive ResolveErr : Type
  | wrongKeyPfx
  | keyTooShort
  | noKeysFound
  | ambiguousKey
  deriving DecidableEq, Repr

/-- `Store.ResolveKey` from `cas/cas.go:165`: reject keys not starting
with `sha512-` or shorter than `minlenKey`; truncate longer-than-full
keys to `lenKey`; then resolve through the store, erroring on zero or
several matches. -/
def resolveKey (stored : List ACIInfo) (key : List Char) : Except ResolveErr (List Char) :=
  if hashPrefixChars.isPrefixOf key = false then Except.error ResolveErr.wrongKeyPfx
  else if key.length < minlenKey then Except.error ResolveErr.keyTooShort
  else
    match getACIInfosWithKeyPfx stored
        (if lenKey < key.length then key.take lenKey else key) with
    | [] => Except.error ResolveErr.noKeysFound
    | [info] => Except.ok info.blobKey
    | _ :: _ :: _ => Except.error ResolveErr.ambiguousKey

theorem isPrefixOf_take (p l : List Char) (n : Nat)
    (hlen : p.length ≤ n) :
    (p.isPrefixOf (l.take n)) = (p.isPrefixOf l) := by
  by_cases h : p <+: l
  · have h1 : p.isPrefixOf l = true := List.isPrefixOf_iff_prefix.mpr h
    have h2 : p.isPrefixOf (l.take n) = true :=
      List.isPrefixOf_iff_prefix.mpr (List.prefix_take_iff.mpr ⟨h, hlen⟩)
    rw [h1, h2]
  · have h1 : p.isPrefixOf l = false := by
      cases hb : p.isPrefixOf l
      · rfl
      · exact absurd (List.isPrefixOf_iff_prefix.mp hb) h
    have h2 : p.isPrefixOf (l.take n) = false := by
      cases hb : p.isPrefixOf (l.take n)
      · rfl
      · exact absurd (List.prefix_take_iff.mp (List.isPrefixOf_iff_prefix.mp hb)).1 h
    rw [h1, h2]

/-- C10: `ResolveKey` errors on every key missing the `sha512-` prefix and
on every key shorter than the prefix plus two characters; a key longer
than the full key length resolves exactly as its truncation to that
length; given a well-formed key it succeeds precisely when exactly one
stored ACI key extends it, returning that stored blob key, and returns the
distinct errors `noKeysFound` and `ambiguousKey` for zero and for several
matches. -/
theorem resolveKey_spec (stored : List ACIInfo) (key : List Char) :
    (hashPrefixChars.isPrefixOf key = false →
      resolveKey stored key = Except.error ResolveErr.wrongKeyPfx) ∧
    (hashPrefixChars.isPrefixOf key = true → key.length < minlenKey →
      resolveKey stored key = Except.error ResolveErr.keyTooShort) ∧
    (lenKey < key.length →
      resolveKey stored key = resolveKey stored (key.take lenKey)) ∧
    (hashPrefixChars.isPrefixOf key = true → minlenKey ≤ key.length →
      (((∃ b, resolveKey stored key = Except.ok b) ↔
          (getACIInfosWithKeyPfx stored
            (if lenKey < key.length then key.take lenKey else key)).length = 1) ∧
       ((getACIInfosWithKeyPfx stored
            (if lenKey < key.length then key.take lenKey else key)).length = 0 →
          resolveKey stored key = Except.error ResolveErr.noKeysFound) ∧
       (2 ≤ (getACIInfosWithKeyPfx stored
            (if lenKey < key.length then key.take lenKey else key)).length →
          resolveKey stored key = Except.error ResolveErr.ambiguousKey) ∧
       (∀ b, resolveKey stored key = Except.ok b →
          ∃ info ∈ stored, info.blobKey = b ∧
            (if lenKey < key.length then key.take lenKey else key).isPrefixOf b = true))) ∧
    ResolveErr.noKeysFound ≠ ResolveErr.ambiguousKey := by
  refine ⟨?_, ?_, ?_, ?_, by decide⟩
  · intro hnp
    simp [resolveKey, hnp]
  · intro hp hshort
    simp [resolveKey, hp, hshort]
  · intro hlong
    have hminlen : minlenKey ≤ lenKey := by decide
    have hplen : hashPrefixChars.length ≤ lenKey := by decide
    have htklen : (key.take lenKey).length = lenKey := by
      rw [List.length_take]
      exact Nat.min_eq_left (Nat.le_of_lt hlong)
    have hpfx : hashPrefixChars.isPrefixOf (key.take lenKey) = hashPrefixChars.isPrefixOf key :=
      isPrefixOf_take _ _ _ hplen
    unfold resolveKey
    rw [hpfx]
    cases hb : hashPrefixChars.isPrefixOf key with
    | false => simp
    | true =>
        have h1 : ¬key.length < minlenKey :=
          Nat.not_lt.mpr (Nat.le_trans hminlen (Nat.le_of_lt hlong))
        have h2 : ¬(key.take lenKey).length < minlenKey := by
          rw [htklen]; exact Nat.not_lt.mpr hminlen
        have h3 : ¬lenKey < (key.take lenKey).length := by
          rw [htklen]; exact Nat.lt_irrefl lenKey
        simp only [h1, h2, h3, hlong, if_true, if_false, ite_true, ite_false, if_neg, if_pos]
  · intro hp hlen
    have hnshort : ¬key.length < minlenKey := Nat.not_lt.mpr hlen
    refine ⟨?_, ?_, ?_, ?_⟩
    · constructor
      · rintro ⟨b, hb⟩
        unfold resolveKey at hb
        rw [hp] at hb
        simp only [Bool.true_eq_false, if_false, ite_false, hnshort, ite_true] at hb
        cases hm : getACIInfosWithKeyPfx stored
            (if lenKey < key.length then key.take lenKey else key) with
        | nil => rw [hm] at hb; cases hb
        | cons a rest =>
            cases rest with
            | nil => rfl
            | cons a' rest' => rw [hm] at hb; cases hb
      · intro hone
        cases hm : getACIInfosWithKeyPfx stored
            (if lenKey < key.length then key.take lenKey else key) with
        | nil => rw [hm] at hone; cases hone
        | cons a rest =>
            cases rest with
            | nil =>
                refine ⟨a.blobKey, ?_⟩
                unfold resolveKey
                rw [hp]
                simp only [Bool.true_eq_false, if_false, ite_false]
                rw [if_neg hnshort, hm]
            | cons a' rest' =>
                rw [hm] at hone
                simp [List.length_cons] at hone
    · intro hzero
      have hm : getACIInfosWithKeyPfx stored
          (if lenKey < key.length then key.take lenKey else key) = [] :=
        List.length_eq_zero.mp hzero
      unfold resolveKey
      rw [hp]
      simp only [Bool.true_eq_false, if_false, ite_false]
      rw [if_neg hnshort, hm]
    · intro htwo
      cases hm : getACIInfosWithKeyPfx stored
          (if lenKey < key.length then key.take lenKey else key) with
      | nil => rw [hm] at htwo; simp at htwo
      | cons a rest =>
          cases rest with
          | nil =>
              rw [hm] at htwo
              simp [List.length_cons] at htwo
          | cons a' rest' =>
              unfold resolveKey
              rw [hp]
              simp only [Bool.true_eq_false, if_false, ite_false]
              rw [if_neg hnshort, hm]
    · intro b hb
      unfold resolveKey at hb
      rw [hp] at hb
      simp only [Bool.true_eq_false, if_false, ite_false] at hb
      rw [if_neg hnshort] at hb
      cases hm : getACIInfosWithKeyPfx stored
          (if lenKey < key.length then key.take lenKey else key) with
      | nil => rw [hm] at hb; cases hb
      | cons a rest =>
          cases rest with
          | nil =>
              rw [hm] at hb
              have hba : b = a.blobKey := by
                injection hb with h'
                exact h'.symm
              have ham : a ∈ getACIInfosWithKeyPfx stored
                  (if lenKey < key.length then key.take lenKey else key) := by
                rw [hm]; exact List.mem_singleton.mpr rfl
              have := List.mem_filter.mp ham
              exact ⟨a, this.1, hba.symm, by rw [hba]; exact this.2⟩
          | cons a' rest' => rw [hm] at hb; cases hb

/-- Witness for C10 clauses with hypotheses: the store holding the single
key `sha512-ab…` is resolved by the partial key `sha512-ab`. -/
theorem resolveKey_spec_witness :
    (hashPrefixChars.isPrefixOf ("sha512-ab".toList) = true ∧
     minlenKey ≤ ("sha512-ab".toList).length) ∧
    ∃ b, resolveKey [{ blobKey := "sha512-abcd".toList }] ("sha512-ab".toList) =
      Except.ok b := by
  refine ⟨⟨by decide, by decide⟩, ?_⟩
  have h := (resolveKey_spec [{ blobKey := "sha512-abcd".toList }]
    ("sha512-ab".toList)).2.2.2.1 (by decide) (by decide)
  exact h.1.mpr (by decide)

end Cas
